import Mathlib

/-!
Verification of the benchviz benchmark-visualization pipeline
(`internal/benchviz/v2`): configuration-driven classification of benchmark
records (packages `config` and `organizer`) and report ingestion
(package `parser`).

The Go source is shallowly embedded:

* A compiled regular expression (`*regexp.Regexp`) is modelled as a
  predicate `String → Bool`; a possibly-nil compiled pattern is
  `Option (String → Bool)`.  Concrete configurations instantiate these
  predicates with the evident semantics of the concrete patterns they
  use (anchored literal, suffix, substring).
* Go maps built by the validated loader (`functionIndex`, `versionIndex`,
  `metricIndex`) are modelled by first-match lookup over the backing
  slice, which agrees with the map under the loader's uniqueness checks.
* `float64` metric values are modelled as `ℚ`; the pipeline only copies
  them, it never computes with them.
* Iteration over the `parse.Set` map is modelled as iteration over a list
  of benchmark groups in some fixed order.
-/

namespace Benchviz

/-! ### String primitives

Character-list implementations of the Go `strings` primitives used by the
source (`HasPrefix`, `TrimPrefix`, `TrimSpace`, `Split`, `Join`), written
so that they reduce inside the kernel on concrete inputs. -/

/-- `listLeads p s` : the char list `p` is an initial segment of `s`
(Go `strings.HasPrefix` on the underlying runes). -/
def listLeads : List Char → List Char → Bool
  | [], _ => true
  | _, [] => false
  | a :: ps, b :: ss => a == b && listLeads ps ss

/-- Go `strings.HasPrefix p s` / the regexp `^p` for a literal `p`. -/
def leads (p s : String) : Bool := listLeads p.toList s.toList

/-- Go `strings.HasSuffix p s` / the regexp `p$` for a literal `p`. -/
def trails (p s : String) : Bool := listLeads p.toList.reverse s.toList.reverse

/-- Go `strings.Contains s sub` / the unanchored regexp `sub` for a literal. -/
def containsSub (sub s : String) : Bool :=
  (List.range (s.toList.length + 1)).any (fun i => listLeads sub.toList (s.toList.drop i))

/-- ASCII whitespace, as trimmed by Go `strings.TrimSpace` on the inputs
relevant here (space, tab, newline, carriage return, vertical tab, form feed). -/
def isSpaceChar (c : Char) : Bool :=
  c == ' ' || c == '\t' || c == '\n' || c == '\r' || c == Char.ofNat 11 || c == Char.ofNat 12

/-- Go `strings.TrimSpace`. -/
def trimSpace (s : String) : String :=
  ⟨((s.toList.dropWhile isSpaceChar).reverse.dropWhile isSpaceChar).reverse⟩

/-- Go `strings.TrimPrefix p s`. -/
def dropPre (p s : String) : String :=
  if leads p s then ⟨s.toList.drop p.toList.length⟩ else s

/-- Go `strings.Split` with a one-character separator, on char lists. -/
def splitChar (sep : Char) : List Char → List (List Char)
  | [] => [[]]
  | c :: rest =>
    let r := splitChar sep rest
    if c == sep then [] :: r
    else
      match r with
      | [] => [[c]]
      | h :: t => (c :: h) :: t

/-- Go `strings.Join parts sep`. -/
def joinWith (sep : String) : List String → String
  | [] => ""
  | [x] => x
  | x :: y :: rest => x ++ sep ++ joinWith sep (y :: rest)

/-! ### Package `config`: metric names, entries, file rules, catalogs -/

/-- Go `config.MetricName` (a string type). -/
abbrev MetricName := String

def MetricNsPerOp : MetricName := "nsPerOp"
def MetricAllocsPerOp : MetricName := "allocsPerOp"
def MetricBytesPerOp : MetricName := "bytesPerOp"
def MetricMBPerS : MetricName := "MBytesPerS"

/-- Go `config.Object`: one dimension entry.  `matchRe` and `notMatchRe`
model the compiled `match` / `notMatch` regexps (`nil` = `none`); the raw
`Match` / `NotMatch` pattern texts are not needed after compilation. -/
structure Object where
  ID : String
  Title : String
  matchRe : Option (String → Bool)
  notMatchRe : Option (String → Bool)

/-- Go `config.Object.MatchString`: `(id, ok)` is modelled as `Option id`. -/
def Object.MatchString (o : Object) (name : String) : Option String :=
  let matchOk := match o.matchRe with | some m => m name | none => false
  let notMatchOk := match o.notMatchRe with | some nm => nm name | none => false
  if o.matchRe.isNone && o.notMatchRe.isNone then none
  else if matchOk && !notMatchOk then some o.ID
  else if o.matchRe.isNone && !notMatchOk then some o.ID
  else none

/-- Go `config.Metric`. -/
structure Metric where
  ID : MetricName
  Title : String
  Axis : String

/-- Go `config.File`: a file rule.  `matchRe` models the compiled
`MatchFile` pattern (`nil` when `MatchFile` was empty). -/
structure File where
  ID : String
  matchRe : Option (String → Bool)
  Contexts : List Object
  Versions : List Object

/-- Go `config.File.MatchString`. -/
def File.MatchString (f : File) (file : String) : Option String :=
  match f.matchRe with
  | none => none
  | some m => if m file then some f.ID else none

/-- Go `config.Includes`. -/
structure Includes where
  Functions : List String
  Versions : List String
  Contexts : List String
  Metrics : List MetricName

/-- Go `config.Category`. -/
structure Category where
  ID : String
  Title : String
  Includes : Includes

/-- Go `config.Config`, restricted to the fields the classifier and
aggregator read.  Functions, contexts and versions share the `Object`
entry shape (Go embeds `Object` in `Function`/`Context`/`Version`). -/
structure Config where
  Name : String
  Environment : String
  Metrics : List Metric
  Functions : List Object
  Contexts : List Object
  Versions : List Object
  Categories : List Category
  Files : List File

/-- First entry of `defs` whose `MatchString` accepts `name` — the shared
loop body of `Config.FindFunction` / `FindVersion` / `FindContext`. -/
def findIn (defs : List Object) (name : String) : Option String :=
  match defs with
  | [] => none
  | d :: rest =>
    match d.MatchString name with
    | some id => some id
    | none => findIn rest name

/-- Go `config.Config.FindFunction`. -/
def Config.FindFunction (c : Config) (name : String) : Option String :=
  findIn c.Functions name

/-- Go `config.Config.FindVersion`. -/
def Config.FindVersion (c : Config) (name : String) : Option String :=
  findIn c.Versions name

/-- Go `config.Config.FindContext`.  NOTE: the source iterates over
`c.Versions`, not `c.Contexts` — this embedding mirrors that.  -/
def Config.FindContext (c : Config) (name : String) : Option String :=
  findIn c.Versions name

/-- Shared loop of `Config.FindVersionFromFile` / `FindContextFromFile`:
scan file rules in order; skip a rule whose file pattern does not match;
otherwise return the first nested entry matching the file path, and keep
scanning later rules when none does. -/
def findFromFiles (files : List File) (sel : File → List Object) (file : String) : Option String :=
  match files with
  | [] => none
  | f :: rest =>
    match f.MatchString file with
    | none => findFromFiles rest sel file
    | some _ =>
      match findIn (sel f) file with
      | some id => some id
      | none => findFromFiles rest sel file

/-- Go `config.Config.FindVersionFromFile`. -/
def Config.FindVersionFromFile (c : Config) (file : String) : Option String :=
  findFromFiles c.Files (fun f => f.Versions) file

/-- Go `config.Config.FindContextFromFile`. -/
def Config.FindContextFromFile (c : Config) (file : String) : Option String :=
  findFromFiles c.Files (fun f => f.Contexts) file

/-- Go `config.Config.GetMetric`: the loader's `metricIndex` map, modelled
as first-match lookup over `Metrics` (IDs are unique after validation). -/
def Config.GetMetric (c : Config) (id : MetricName) : Option Metric :=
  c.Metrics.find? (fun m => m.ID == id)

/-- Go `config.Config.GetVersion` (the `versionIndex` map). -/
def Config.GetVersion (c : Config) (id : String) : Option Object :=
  c.Versions.find? (fun v => v.ID == id)

/-! ### Package `model`: the output data model -/

namespace model

/-- Go `model.MetricPoint` (`Value` is a `float64`, modelled as `ℚ`). -/
structure MetricPoint where
  Name : String
  Value : ℚ

/-- Go `model.MetricSeries`. -/
structure MetricSeries where
  Title : String
  Points : List MetricPoint

/-- Go `model.CategoryData`: the series for one metric and one version. -/
structure CategoryData where
  Version : Object
  Metric : Metric
  Series : List MetricSeries

/-- Go `model.Category`. -/
structure Category where
  ID : String
  Title : String
  Environment : String
  Data : List CategoryData

/-- Go `model.Scenario`. -/
structure Scenario where
  Name : String
  Categories : List Category

/-- Go `model.SeriesKey`. -/
structure SeriesKey where
  Function : String
  Version : String
  Context : String
  Metric : MetricName

end model

/-! ### Package `parser`: report ingestion -/

/-- The fields of `parse.Benchmark` (from `golang.org/x/tools`) read by the
organizer.  `NsPerOp`/`MBPerS` are `float64`, `AllocsPerOp` and
`AllocedBytesPerOp` are `uint64` converted with `float64(...)` at use. -/
structure Benchmark where
  Name : String
  NsPerOp : ℚ
  AllocedBytesPerOp : ℕ
  AllocsPerOp : ℕ
  MBPerS : ℚ

/-- Go `parser.Set`: one ingested source.  `Set` models the embedded
`parse.Set` map (name → benchmarks); its iteration order is fixed as the
list order here. -/
structure ParserSet where
  Set : List (List Benchmark)
  File : String
  Environment : String

/-- Go `parser.extractEnvironment`. -/
def extractEnvironment (text : String) : String :=
  let lines := (splitChar '\n' text.toList).map (fun l => (⟨l⟩ : String))
  let parts := lines.foldl (fun parts line =>
    let line := trimSpace line
    if leads "goos: " line then parts ++ [dropPre "goos: " line]
    else if leads "goarch: " line then parts ++ [dropPre "goarch: " line]
    else if leads "cpu: " line then
      parts ++ ["cpu: " ++ trimSpace (dropPre "cpu: " line)]
    else parts) ([] : List String)
  if parts.isEmpty then "unknown environment" else joinWith " " parts

/-- Go `parser.testEvent`, restricted to the fields `parseJSON` reads. -/
structure testEvent where
  Action : String
  Output : String

/-- Go `parser.(*BenchmarkParser).parseText`.  The line-level measurement
scanner `parse.ParseSet` is an external collaborator and is taken as the
parameter `parseSet` (`none` models its error return); the `File` field is
set by the caller and is left empty here, as in the source. -/
def parseText (parseSet : String → Option (List (List Benchmark))) (content : String) :
    Option ParserSet :=
  let environment := extractEnvironment content
  match parseSet content with
  | none => none
  | some set => some { Set := set, File := "", Environment := environment }

/-- The text accumulated by `parseJSON`'s scan loop: each input line is
modelled post-JSON-decoding as `Option testEvent` (`none` for a line that
fails to decode, which the loop skips); an `"output"` event with a
non-empty payload appends its payload. -/
def outputText (lines : List (Option testEvent)) : String :=
  lines.foldl (fun acc e? =>
    match e? with
    | none => acc
    | some event =>
      if event.Action == "output" && event.Output != "" then acc ++ event.Output
      else acc) ""

/-- Go `parser.(*BenchmarkParser).parseJSON`, over decoded event lines. -/
def parseJSON (parseSet : String → Option (List (List Benchmark)))
    (lines : List (Option testEvent)) : Option ParserSet :=
  let out := outputText lines
  let environment := extractEnvironment out
  match parseSet out with
  | none => none
  | some set => some { Set := set, File := "", Environment := environment }

/-- The text carried by a structured-event stream, in the words of the
spec: the `Output` payloads of the decodable events whose `Action` is
`"output"`, concatenated in arrival order. -/
def carriedOutput (lines : List (Option testEvent)) : String :=
  String.join (((lines.filterMap id).filter (fun e => e.Action == "output")).map
    (fun e => e.Output))

/-! ### Package `organizer`: classification and aggregation -/

/-- Go `organizer.ParsedBenchmark` (flattening the embedded
`model.SeriesKey` and `model.MetricPoint`). -/
structure ParsedBenchmark where
  Function : String
  Version : String
  Context : String
  Metric : MetricName
  Name : String
  Value : ℚ
  Environment : String

/-- A diagnostic emitted through the organizer's logger. -/
structure Diag where
  file : String
  name : String
  reason : String

/-- Go `organizer.defaultString`. -/
def defaultString (s d : String) : String :=
  if s = "" then d else s

/-- Go `organizer.(*Organizer).parseBenchmarkName`, also returning the
diagnostics it logs.  Mirrors the source faithfully, including:
the version `ok` flag (not a context flag) guarding the context file
fallback, and the discarded `ok` result of `FindContext`. -/
def parseBenchmarkName (cfg : Config) (name file env : String) :
    Option ParsedBenchmark × List Diag :=
  match cfg.FindFunction name with
  | none => (none, [⟨file, name, "no function matched"⟩])
  | some function =>
    let vres := cfg.FindVersion name
    let version :=
      match vres with
      | some v => v
      | none => (cfg.FindVersionFromFile file).getD ""
    let context :=
      match vres with
      | some _ => (cfg.FindContext name).getD ""
      | none => (cfg.FindContextFromFile file).getD ""
    let diags :=
      if version = "" && context = "" then
        [(⟨file, name, "no version, no context matched"⟩ : Diag)]
      else []
    (some { Function := function
            Version := version
            Context := context
            Metric := ""
            Name := ""
            Value := 0
            Environment := defaultString cfg.Environment env }, diags)

/-- The four sequential metric blocks in `parseBenchmarks`: for each
configured metric kind, a copy of `parsed` with metric ID, metric title
and metric value filled in is appended.  (The dead store of `NsPerOp`
before `AllocsPerOp` in the source has no observable effect.) -/
def metricRecords (cfg : Config) (parsed : ParsedBenchmark) (bench : Benchmark) :
    List ParsedBenchmark :=
  (match cfg.GetMetric MetricNsPerOp with
   | some metric =>
     [{ parsed with Metric := metric.ID, Name := metric.Title, Value := bench.NsPerOp }]
   | none => []) ++
  (match cfg.GetMetric MetricAllocsPerOp with
   | some metric =>
     [{ parsed with Metric := metric.ID, Name := metric.Title, Value := (bench.AllocsPerOp : ℚ) }]
   | none => []) ++
  (match cfg.GetMetric MetricBytesPerOp with
   | some metric =>
     [{ parsed with Metric := metric.ID, Name := metric.Title, Value := (bench.AllocedBytesPerOp : ℚ) }]
   | none => []) ++
  (match cfg.GetMetric MetricMBPerS with
   | some metric =>
     [{ parsed with Metric := metric.ID, Name := metric.Title, Value := bench.MBPerS }]
   | none => [])

/-- The body of `parseBenchmarks`'s innermost loop for one benchmark:
the records appended for it and the diagnostics logged for it. -/
def parseBench (cfg : Config) (file env : String) (bench : Benchmark) :
    List ParsedBenchmark × List Diag :=
  match parseBenchmarkName cfg bench.Name file env with
  | (none, ds) => ([], ds ++ [⟨file, bench.Name, "benchmark not ingested"⟩])
  | (some parsed, ds) =>
    let recs := metricRecords cfg parsed bench
    (recs, ds ++ (if recs.isEmpty then [⟨file, bench.Name, "no benchmark metric ingested"⟩] else []))

/-- Go `organizer.(*Organizer).parseBenchmarks`: the flat list of records
accumulated over all sources, groups and benchmarks, together with the
diagnostics, in emission order. -/
def parseBenchmarks (cfg : Config) (sets : List ParserSet) :
    List ParsedBenchmark × List Diag :=
  let pairs := sets.flatMap (fun set =>
    set.Set.flatMap (fun benchs =>
      benchs.map (fun bench => parseBench cfg set.File set.Environment bench)))
  let benchmarks := pairs.flatMap (fun p => p.1)
  let diags := pairs.flatMap (fun p => p.2)
  (benchmarks, diags ++ (if benchmarks.isEmpty then [⟨"", "", "benchmark set is empty"⟩] else []))

/-- The filter in `SeriesFor`'s innermost loop (negated `continue` guard). -/
def benchMatches (metric : MetricName) (version wantFunction wantContext : String)
    (bench : ParsedBenchmark) : Bool :=
  bench.Metric == metric && bench.Function == wantFunction &&
    bench.Version == version && bench.Context == wantContext

/-- The `indexSeries` Go map (function → series index): an association
list with insertion at the head; keys are inserted at most once. -/
def lookupIdx : List (String × ℕ) → String → Option ℕ
  | [], _ => none
  | (k, v) :: rest, key => if k == key then some v else lookupIdx rest key

/-- The point appended by `SeriesFor` for one matching record. -/
def mkPoint (bench : ParsedBenchmark) : model.MetricPoint :=
  ⟨bench.Function ++ " - " ++ bench.Version ++ " - " ++ bench.Context, bench.Value⟩

/-- `series[idx].Points = append(series[idx].Points, p)` (no-op when `idx`
is out of range; `SeriesFor` only uses in-range indices). -/
def appendPointAt (series : List model.MetricSeries) (idx : ℕ) (p : model.MetricPoint) :
    List model.MetricSeries :=
  match series.get? idx with
  | none => series
  | some ms => series.set idx { ms with Points := ms.Points ++ [p] }

/-- One iteration of `SeriesFor`'s innermost loop, acting on the state
`(series, indexSeries)`. -/
def seriesStep (metric : MetricName) (version wantFunction wantContext : String)
    (st : List model.MetricSeries × List (String × ℕ)) (bench : ParsedBenchmark) :
    List model.MetricSeries × List (String × ℕ) :=
  if benchMatches metric version wantFunction wantContext bench then
    let series := st.1
    let indexSeries := st.2
    match lookupIdx indexSeries bench.Function with
    | some idx => (appendPointAt series idx (mkPoint bench), indexSeries)
    | none =>
      let idx := series.length
      let series := series ++ [{ Title := version, Points := [] }]
      (appendPointAt series idx (mkPoint bench), (bench.Function, idx) :: indexSeries)
  else st

/-- Go `organizer.BenchmarkSet.SeriesFor` (the benchmark set is passed as
the list `s`): triple loop over configured functions, then configured
contexts, then records, threading `(series, indexSeries)`. -/
def SeriesFor (s : List ParsedBenchmark) (metric : MetricName) (version : String)
    (filter : Category) : List model.MetricSeries :=
  (filter.Includes.Functions.foldl (fun st wantFunction =>
    filter.Includes.Contexts.foldl (fun st wantContext =>
      s.foldl (seriesStep metric version wantFunction wantContext) st) st)
    (([], []) : List model.MetricSeries × List (String × ℕ))).1

/-- The zero value of `model.Category` (`make([]model.Category, n)` fills
with these). -/
def catZero : model.Category := { ID := "", Title := "", Environment := "", Data := [] }

/-- The zero values used when a `GetMetric` / `GetVersion` lookup misses
(`metric, _ := ...` discards the `ok` flag in `populateCategories`). -/
def metricZero : Metric := { ID := "", Title := "", Axis := "" }

def objectZero : Object := { ID := "", Title := "", matchRe := none, notMatchRe := none }

/-- Go `organizer.(*Organizer).populateCategories`.  NOTE: the source
allocates `make([]model.Category, len(cfg.Categories))` and then
`append`s, so the result starts with `len(cfg.Categories)` zero-valued
categories; the embedding mirrors that. -/
def populateCategories (cfg : Config) (set : List ParsedBenchmark) : model.Scenario :=
  { Name := cfg.Name
    Categories := cfg.Categories.foldl (fun acc categoryConfig =>
      acc ++ [{ ID := categoryConfig.ID
                Title := categoryConfig.Title
                Environment := cfg.Environment
                Data := categoryConfig.Includes.Metrics.flatMap (fun metricID =>
                  let metric := (cfg.GetMetric metricID).getD metricZero
                  categoryConfig.Includes.Versions.map (fun versionID =>
                    let version := (cfg.GetVersion versionID).getD objectZero
                    { Metric := metric
                      Version := version
                      Series := SeriesFor set metric.ID version.ID categoryConfig })) }])
      (List.replicate cfg.Categories.length catZero) }

/-- Go `organizer.(*Organizer).Scenarize`. -/
def Scenarize (cfg : Config) (sets : List ParserSet) : model.Scenario :=
  populateCategories cfg (parseBenchmarks cfg sets).1

/-! ### Derived notions used to state the aggregation properties -/

/-- The points that `SeriesFor` accumulates for one function `wf`:
matching records grouped by the configured context order (context-major,
record-order minor), each mapped to its labelled point. -/
def matchPoints (s : List ParsedBenchmark) (metric : MetricName) (version wf : String)
    (contexts : List String) : List model.MetricPoint :=
  contexts.flatMap (fun wc => (s.filter (benchMatches metric version wf wc)).map mkPoint)

/-- Extend the points of the series at index `idx` by `ps` (no-op when out
of range); `appendPointAt` is the single-point case. -/
def extendAt (series : List model.MetricSeries) (idx : ℕ) (ps : List model.MetricPoint) :
    List model.MetricSeries :=
  match series.get? idx with
  | none => series
  | some ms => series.set idx { ms with Points := ms.Points ++ ps }

/-! ### Concrete configurations used by counterexamples and witnesses -/

/-- Spec §8 "Concrete scenario A": function `equal` with pattern
`^BenchmarkEqual`, version `generic` with pattern `_generic$`, context
`int` with pattern `/int-`, metric ns-per-op, one category including all
three.  The three patterns are modelled by their regexp semantics:
anchored literal head, anchored literal tail, literal substring. -/
def cfgA : Config :=
  { Name := "scenario-a"
    Environment := ""
    Metrics := [{ ID := MetricNsPerOp, Title := "ns/op", Axis := "ns" }]
    Functions := [{ ID := "equal", Title := "Equal", matchRe := some (leads "BenchmarkEqual"), notMatchRe := none }]
    Contexts := [{ ID := "int", Title := "Int", matchRe := some (containsSub "/int-"), notMatchRe := none }]
    Versions := [{ ID := "generic", Title := "Generic", matchRe := some (trails "_generic"), notMatchRe := none }]
    Categories := [{ ID := "cat", Title := "Cat"
                     Includes := { Functions := ["equal"], Versions := ["generic"],
                                   Contexts := ["int"], Metrics := [MetricNsPerOp] } }]
    Files := [] }

/-- Scenario A's single input measurement: `BenchmarkEqual_generic/int-8`
with 12.3 ns/op, read from `bench.txt`. -/
def setA : ParserSet :=
  { Set := [[{ Name := "BenchmarkEqual_generic/int-8", NsPerOp := 12.3,
               AllocedBytesPerOp := 0, AllocsPerOp := 0, MBPerS := 0 }]]
    File := "bench.txt"
    Environment := "linux amd64" }

/-- A configuration with exactly one declared category. -/
def cfgOne : Config :=
  { Name := "one"
    Environment := ""
    Metrics := [{ ID := MetricNsPerOp, Title := "ns/op", Axis := "ns" }]
    Functions := [{ ID := "f", Title := "F", matchRe := some (leads "BenchmarkF"), notMatchRe := none }]
    Contexts := [{ ID := "c", Title := "C", matchRe := some (containsSub "/c-"), notMatchRe := none }]
    Versions := [{ ID := "v", Title := "V", matchRe := some (containsSub "_v"), notMatchRe := none }]
    Categories := [{ ID := "cat1", Title := "Cat 1"
                     Includes := { Functions := ["f"], Versions := ["v"],
                                   Contexts := ["c"], Metrics := [MetricNsPerOp] } }]
    Files := [] }

/-- A catalog where the context entry `ctx` matches exactly the name `"X"`
and the version entry `ver` matches exactly the name `"Y"`. -/
def cfgCtxVer : Config :=
  { Name := ""
    Environment := ""
    Metrics := []
    Functions := []
    Contexts := [{ ID := "ctx", Title := "Ctx", matchRe := some (fun s => s == "X"), notMatchRe := none }]
    Versions := [{ ID := "ver", Title := "Ver", matchRe := some (fun s => s == "Y"), notMatchRe := none }]
    Categories := []
    Files := [] }

/-- Fallback probe 1: a context entry `c` matches the benchmark name `"N"`
by name, the version catalog is empty, and a catch-all file rule carries a
nested context entry `fc` matching the source path `"F"`. -/
def cfgFall1 : Config :=
  { Name := ""
    Environment := ""
    Metrics := []
    Functions := [{ ID := "op", Title := "Op", matchRe := some (fun _ => true), notMatchRe := none }]
    Contexts := [{ ID := "c", Title := "C", matchRe := some (fun s => s == "N"), notMatchRe := none }]
    Versions := []
    Categories := []
    Files := [{ ID := "rule", matchRe := some (fun _ => true)
                Contexts := [{ ID := "fc", Title := "FC", matchRe := some (fun s => s == "F"), notMatchRe := none }]
                Versions := [] }] }

/-- Fallback probe 2: the version entry `v` matches the name `"N"`, no
context entry matches any name, and the same catch-all file rule carries
the nested context entry `fc` matching the source path `"F"`. -/
def cfgFall2 : Config :=
  { Name := ""
    Environment := ""
    Metrics := []
    Functions := [{ ID := "op", Title := "Op", matchRe := some (fun _ => true), notMatchRe := none }]
    Contexts := []
    Versions := [{ ID := "v", Title := "V", matchRe := some (fun s => s == "N"), notMatchRe := none }]
    Categories := []
    Files := [{ ID := "rule", matchRe := some (fun _ => true)
                Contexts := [{ ID := "fc", Title := "FC", matchRe := some (fun s => s == "F"), notMatchRe := none }]
                Versions := [] }] }

/-- A catalog with no function entries: every name fails function
classification. -/
def cfgNoFun : Config :=
  { Name := ""
    Environment := ""
    Metrics := [{ ID := MetricNsPerOp, Title := "ns/op", Axis := "ns" }]
    Functions := []
    Contexts := []
    Versions := []
    Categories := []
    Files := [] }

/-- A catalog whose single function entry matches every name, with no
version entries, no context entries and no file rules: the function always
resolves and version/context never do. -/
def cfgFunOnly : Config :=
  { Name := ""
    Environment := ""
    Metrics := [{ ID := MetricNsPerOp, Title := "ns/op", Axis := "ns" }]
    Functions := [{ ID := "op", Title := "Op", matchRe := some (fun _ => true), notMatchRe := none }]
    Contexts := []
    Versions := []
    Categories := []
    Files := [] }

/-- Three classified records over two functions and two contexts. -/
def recsW : List ParsedBenchmark :=
  [⟨"f1", "v1", "c1", MetricNsPerOp, "", 1, ""⟩,
   ⟨"f1", "v1", "c2", MetricNsPerOp, "", 2, ""⟩,
   ⟨"f2", "v1", "c1", MetricNsPerOp, "", 3, ""⟩]

/-- A category including both functions and both contexts of `recsW`. -/
def catW : Category :=
  { ID := "cw"
    Title := "CW"
    Includes := { Functions := ["f1", "f2"], Versions := ["v1"],
                  Contexts := ["c1", "c2"], Metrics := [MetricNsPerOp] } }

/-- An unclassified-version record (empty version identifier). -/
def recEmptyVersion : ParsedBenchmark := ⟨"f1", "", "c1", MetricNsPerOp, "", 7, ""⟩

/-! ## Theorems -/

/-- C3: For every entry and every subject: with an inclusion pattern, the
entry matches exactly when the subject satisfies the inclusion and, when
an exclusion pattern is also present, does not satisfy the exclusion;
with only an exclusion pattern, it matches exactly when the subject fails
the exclusion; with neither pattern, it never matches.  In each matching
case the entry's own identifier is returned. -/
theorem object_matchString_semantics (o : Object) (name : String) :
    o.MatchString name =
      match o.matchRe, o.notMatchRe with
      | none, none => none
      | some m, none => if m name then some o.ID else none
      | some m, some nm => if m name && !(nm name) then some o.ID else none
      | none, some nm => if nm name then none else some o.ID := by
  rcases o with ⟨id, title, mre, nmre⟩
  cases mre with
  | none =>
    cases nmre with
    | none => rfl
    | some nm => cases h : nm name <;> simp [Object.MatchString, h]
  | some m =>
    cases nmre with
    | none => cases h : m name <;> simp [Object.MatchString, h]
    | some nm =>
      cases h : m name <;> cases h' : nm name <;> simp [Object.MatchString, h, h']

/-- `findFromFiles` in closed form: scan rules in declaration order and
return the first contribution, where a rule contributes exactly when its
file pattern matches the path and some nested entry (scanned in order by
`findIn`) matches the same path. -/
theorem findFromFiles_eq (files : List File) (sel : File → List Object) (file : String) :
    findFromFiles files sel file =
      (files.filterMap (fun f =>
        match f.MatchString file with
        | none => none
        | some _ => findIn (sel f) file)).head? := by
  induction files with
  | nil => rfl
  | cons f rest ih =>
    simp only [findFromFiles, List.filterMap_cons]
    cases hf : f.MatchString file with
    | none => simpa using ih
    | some id =>
      cases hn : findIn (sel f) file with
      | none => simpa using ih
      | some v => rfl

/-- C9: file-rule fallback matches the nested version and context entries
against the source path itself (the benchmark name does not occur in the
resolution at all): a rule contributes exactly when its file pattern
matches the path and one of its nested entries matches that same path,
rules and nested entries being scanned in declaration order. -/
theorem file_rule_resolution_characterization (c : Config) (file : String) :
    c.FindVersionFromFile file =
      (c.Files.filterMap (fun f =>
        match f.MatchString file with
        | none => none
        | some _ => findIn f.Versions file)).head? ∧
    c.FindContextFromFile file =
      (c.Files.filterMap (fun f =>
        match f.MatchString file with
        | none => none
        | some _ => findIn f.Contexts file)).head? :=
  ⟨findFromFiles_eq c.Files (fun f => f.Versions) file,
   findFromFiles_eq c.Files (fun f => f.Contexts) file⟩

/-- C1: the claim fails on the code.  `populateCategories` allocates
`make([]model.Category, len(cfg.Categories))` and then appends, so for a
configuration with one declared category the Scenario holds two
categories, the first of which is the zero value (empty identifier and
title, no data) — an extra, zero-valued Category the claim rules out. -/
theorem scenarize_zero_valued_padding :
    cfgOne.Categories.length = 1 ∧
    (Scenarize cfgOne []).Categories.length = 2 ∧
    (Scenarize cfgOne []).Categories.head? = some catZero :=
  ⟨rfl, rfl, rfl⟩

/-- C2: the claim fails on the code.  `Config.FindContext` iterates over
`c.Versions` instead of `c.Contexts`: for the catalog `cfgCtxVer`, the
context entry `ctx` matches the name `"X"` yet `FindContext "X"` reports
no match, while no context entry matches `"Y"` yet `FindContext "Y"`
returns the version entry `ver`. -/
theorem findContext_scans_version_catalog :
    findIn cfgCtxVer.Contexts "X" = some "ctx" ∧
    Config.FindContext cfgCtxVer "X" = none ∧
    findIn cfgCtxVer.Contexts "Y" = none ∧
    Config.FindContext cfgCtxVer "Y" = some "ver" :=
  ⟨rfl, rfl, rfl, rfl⟩

/-- C4: the claim fails on the code.  In `parseBenchmarkName` the context
fallback is guarded by the `ok` flag of the *version* name lookup, and
name-based context matching consults the version catalog.  With `cfgFall1`
a context entry matches the name `"N"`, yet the record's context comes
from the file rule (`"fc"`); with `cfgFall2` no context entry matches any
name, yet no file fallback happens and the context is the version's
identifier `"v"`. -/
theorem context_fallback_keyed_on_version_resolution :
    (parseBenchmarkName cfgFall1 "N" "F" "e").1 = some ⟨"op", "", "fc", "", "", 0, "e"⟩ ∧
    findIn cfgFall1.Contexts "N" = some "c" ∧
    (parseBenchmarkName cfgFall2 "N" "F" "e").1 = some ⟨"op", "v", "v", "", "", 0, "e"⟩ ∧
    findIn cfgFall2.Contexts "N" = none :=
  ⟨rfl, rfl, rfl, rfl⟩

/-- C7 counterexample: running the pipeline of `Scenarize` on scenario A's
exact configuration (`cfgA`) and input (`setA`), every `CategoryData` of
every produced Category — in particular the (ns-per-op, generic) one —
holds zero series, so no Point labelled `"equal – generic – int"` with
value 12.3 exists anywhere in the Scenario. -/
theorem scenario_a_counterexample :
    ((Scenarize cfgA [setA]).Categories.map (fun c => c.Data.map (fun d => d.Series))) =
      [[], [[]]] :=
  rfl

/-- C7 amended: on scenario A's configuration and input, the version
pattern `_generic$` does not match `BenchmarkEqual_generic/int-8`, so the
measurement is classified as one record with function `equal`, empty
version and context identifiers and raw value 12.3, and the (ns-per-op,
generic) CategoryData of the produced Category holds zero series — no
Point is emitted. -/
theorem scenario_a_amended :
    (parseBenchmarks cfgA [setA]).1 =
      [⟨"equal", "", "", MetricNsPerOp, "ns/op", 12.3, "linux amd64"⟩] ∧
    ((Scenarize cfgA [setA]).Categories.map (fun c => c.Data.map (fun d => d.Series))) =
      [[], [[]]] :=
  ⟨rfl, rfl⟩

/-- Folding string concatenation from any accumulator. -/
theorem foldl_str_append (l : List String) :
    ∀ x : String, l.foldl (fun r s => r ++ s) x = x ++ l.foldl (fun r s => r ++ s) "" := by
  induction l with
  | nil => intro x; simp
  | cons y ys ih =>
    intro x
    rw [List.foldl_cons, ih (x ++ y), List.foldl_cons, ih ("" ++ y)]
    simp [String.append_assoc]

theorem str_join_cons (x : String) (xs : List String) :
    String.join (x :: xs) = x ++ String.join xs := by
  simp only [String.join, List.foldl_cons]
  rw [foldl_str_append xs ("" ++ x)]
  simp

/-- `parseJSON`'s accumulated text equals the carried output text of the
spec's description: the `Output` payloads of decodable `"output"` events,
concatenated in arrival order (the implementation's extra non-empty check
only skips payloads that contribute nothing to the concatenation). -/
theorem outputText_eq_carried (lines : List (Option testEvent)) :
    outputText lines = carriedOutput lines := by
  suffices h : ∀ acc : String,
      lines.foldl (fun acc e? =>
        match e? with
        | none => acc
        | some event =>
          if event.Action == "output" && event.Output != "" then acc ++ event.Output
          else acc) acc = acc ++ carriedOutput lines by
    simpa [outputText] using h ""
  induction lines with
  | nil => intro acc; simp [carriedOutput, String.join]
  | cons e? rest ih =>
    intro acc
    cases e? with
    | none => simp only [List.foldl_cons]; rw [ih]; simp [carriedOutput]
    | some event =>
      simp only [List.foldl_cons]
      by_cases ha : event.Action = "output"
      · by_cases ho : event.Output = ""
        · rw [ih]
          simp [carriedOutput, ha, ho, str_join_cons]
        · rw [ih]
          simp [carriedOutput, ha, ho, str_join_cons, String.append_assoc]
      · rw [ih]
        simp [carriedOutput, ha]

/-- C8: a plain-text report `T` and a structured-event stream that carries
`T` as the `Output` payloads of its `"output"` events (in order) produce
equal `Set`s — the same parsed measurements (for any measurement scanner
`parseSet`) and the same extracted environment — and aggregation over
either input produces an identical Scenario. -/
theorem encoding_equivalence (parseSet : String → Option (List (List Benchmark)))
    (lines : List (Option testEvent)) (T : String) (h : carriedOutput lines = T) :
    parseJSON parseSet lines = parseText parseSet T ∧
    ∀ (cfg : Config) (sJ sT : ParserSet),
      parseJSON parseSet lines = some sJ → parseText parseSet T = some sT →
      Scenarize cfg [sJ] = Scenarize cfg [sT] := by
  have heq : parseJSON parseSet lines = parseText parseSet T := by
    simp only [parseJSON, parseText, outputText_eq_carried, h]
  refine ⟨heq, ?_⟩
  intro cfg sJ sT hJ hT
  rw [heq, hT] at hJ
  cases hJ
  rfl

/-- Witness for C8 at a concrete stream: one decodable `"output"` event
carrying `"goos: linux\n"`, one undecodable line, one non-output event. -/
theorem encoding_equivalence_witness :
    carriedOutput [some ⟨"output", "goos: linux\n"⟩, none, some ⟨"run", "x"⟩] = "goos: linux\n" ∧
    parseJSON (fun t => some [[⟨t, 1, 0, 0, 0⟩]])
        [some ⟨"output", "goos: linux\n"⟩, none, some ⟨"run", "x"⟩] =
      parseText (fun t => some [[⟨t, 1, 0, 0, 0⟩]]) "goos: linux\n" :=
  ⟨rfl,
   (encoding_equivalence (fun t => some [[⟨t, 1, 0, 0, 0⟩]])
      [some ⟨"output", "goos: linux\n"⟩, none, some ⟨"run", "x"⟩] "goos: linux\n" rfl).1⟩

/-- Records built by the metric blocks keep the parsed environment. -/
theorem metricRecords_env (cfg : Config) (parsed : ParsedBenchmark) (bench : Benchmark) :
    ∀ x ∈ metricRecords cfg parsed bench, x.Environment = parsed.Environment := by
  intro x hx
  simp only [metricRecords, List.mem_append] at hx
  rcases hx with ((hx | hx) | hx) | hx
  · cases h : cfg.GetMetric MetricNsPerOp <;> simp [h] at hx
    subst hx; rfl
  · cases h : cfg.GetMetric MetricAllocsPerOp <;> simp [h] at hx
    subst hx; rfl
  · cases h : cfg.GetMetric MetricBytesPerOp <;> simp [h] at hx
    subst hx; rfl
  · cases h : cfg.GetMetric MetricMBPerS <;> simp [h] at hx
    subst hx; rfl

/-- The record assembled by `parseBenchmarkName` carries
`defaultString cfg.Environment env`. -/
theorem parseBenchmarkName_env (cfg : Config) (name file env : String) (r : ParsedBenchmark)
    (h : (parseBenchmarkName cfg name file env).1 = some r) :
    r.Environment = defaultString cfg.Environment env := by
  unfold parseBenchmarkName at h
  cases hf : cfg.FindFunction name with
  | none => rw [hf] at h; simp at h
  | some fid =>
    rw [hf] at h
    simp only at h
    cases h
    rfl

/-- Every record appended for one benchmark carries
`defaultString cfg.Environment env`. -/
theorem parseBench_env (cfg : Config) (file env : String) (bench : Benchmark) :
    ∀ r ∈ (parseBench cfg file env bench).1,
      r.Environment = defaultString cfg.Environment env := by
  intro r hr
  unfold parseBench at hr
  cases hp : parseBenchmarkName cfg bench.Name file env with
  | mk o ds =>
    rw [hp] at hr
    cases o with
    | none => simp at hr
    | some parsed =>
      simp only at hr
      have henv : parsed.Environment = defaultString cfg.Environment env :=
        parseBenchmarkName_env cfg bench.Name file env parsed (by rw [hp])
      rw [← henv]
      exact metricRecords_env cfg parsed bench r hr

/-- C10: every classified record's environment string is the
configuration-level environment when that is non-empty, and the
environment extracted from the record's source report otherwise. -/
theorem record_environment_override (cfg : Config) (set : ParserSet) (r : ParsedBenchmark)
    (h : r ∈ (parseBenchmarks cfg [set]).1) :
    r.Environment = if cfg.Environment = "" then set.Environment else cfg.Environment := by
  simp only [parseBenchmarks, List.flatMap_cons, List.flatMap_nil, List.append_nil,
    List.mem_flatMap, List.mem_map] at h
  obtain ⟨p, ⟨benchs, hbenchs, bench, hbench, hp⟩, hr⟩ := h
  subst hp
  have := parseBench_env cfg set.File set.Environment bench r hr
  rw [this]
  rfl

/-- Witness for C10: with an empty configured environment, the classified
record of a one-measurement source carries the extracted environment
`"envX"` of that source. -/
theorem record_environment_override_witness :
    (⟨"op", "", "", MetricNsPerOp, "ns/op", 5, "envX"⟩ : ParsedBenchmark) ∈
      (parseBenchmarks cfgFunOnly
        [{ Set := [[⟨"B", 5, 0, 0, 0⟩]], File := "f.txt", Environment := "envX" }]).1 ∧
    (⟨"op", "", "", MetricNsPerOp, "ns/op", 5, "envX"⟩ : ParsedBenchmark).Environment =
      if cfgFunOnly.Environment = "" then "envX" else cfgFunOnly.Environment := by
  have hmem : (⟨"op", "", "", MetricNsPerOp, "ns/op", 5, "envX"⟩ : ParsedBenchmark) ∈
      (parseBenchmarks cfgFunOnly
        [{ Set := [[⟨"B", 5, 0, 0, 0⟩]], File := "f.txt", Environment := "envX" }]).1 :=
    List.mem_singleton.2 rfl
  exact ⟨hmem,
    record_environment_override cfgFunOnly
      { Set := [[⟨"B", 5, 0, 0, 0⟩]], File := "f.txt", Environment := "envX" } _ hmem⟩

/-! ### The aggregation loop of `SeriesFor`, characterized -/

theorem list_set_self {α : Type} :
    ∀ (l : List α) (i : ℕ) (a : α), l[i]? = some a → l.set i a = l := by
  intro l
  induction l with
  | nil => intro i a h; cases i <;> simp at h
  | cons x xs ih =>
    intro i a h
    cases i with
    | zero => simp at h; simp [h]
    | succ n => simp at h; simp [ih n a h]

theorem extendAt_nil (series : List model.MetricSeries) (idx : ℕ) :
    extendAt series idx [] = series := by
  cases h : series[idx]? with
  | none => simp [extendAt, h]
  | some ms =>
    simp only [extendAt, List.get?_eq_getElem?, h, List.append_nil]
    exact list_set_self series idx ms h

theorem extendAt_length (series : List model.MetricSeries) (idx : ℕ)
    (ps : List model.MetricPoint) : (extendAt series idx ps).length = series.length := by
  unfold extendAt
  cases series.get? idx <;> simp

theorem extendAt_extendAt (series : List model.MetricSeries) (idx : ℕ)
    (ps qs : List model.MetricPoint) :
    extendAt (extendAt series idx ps) idx qs = extendAt series idx (ps ++ qs) := by
  cases h : series[idx]? with
  | none => simp [extendAt, List.get?_eq_getElem?, h]
  | some ms =>
    have hlt : idx < series.length := by
      by_contra hge
      rw [List.getElem?_eq_none (le_of_not_lt hge)] at h
      cases h
    have h2 : (series.set idx { ms with Points := ms.Points ++ ps })[idx]? =
        some { ms with Points := ms.Points ++ ps } := by
      simp [hlt]
    simp only [extendAt, List.get?_eq_getElem?, h, h2]
    rw [List.set_set]
    simp

theorem appendPointAt_eq (series : List model.MetricSeries) (idx : ℕ) (p : model.MetricPoint) :
    appendPointAt series idx p = extendAt series idx [p] := by
  unfold appendPointAt extendAt
  cases series.get? idx <;> rfl

theorem benchMatches_eq {metric : MetricName} {version wf wc : String}
    {bench : ParsedBenchmark} (h : benchMatches metric version wf wc bench = true) :
    bench.Metric = metric ∧ bench.Function = wf ∧ bench.Version = version ∧
      bench.Context = wc := by
  have h' := h
  simp only [benchMatches, Bool.and_eq_true, beq_iff_eq] at h'
  exact ⟨h'.1.1.1, h'.1.1.2, h'.1.2, h'.2⟩

theorem seriesStep_skip (metric : MetricName) (version wf wc : String)
    (st : List model.MetricSeries × List (String × ℕ)) (bench : ParsedBenchmark)
    (h : benchMatches metric version wf wc bench = false) :
    seriesStep metric version wf wc st bench = st := by
  simp [seriesStep, h]

theorem lookupIdx_head (map : List (String × ℕ)) (wf : String) (idx : ℕ) :
    lookupIdx ((wf, idx) :: map) wf = some idx := by
  simp [lookupIdx]

theorem lookupIdx_cons_ne (map : List (String × ℕ)) (k w : String) (v : ℕ) (h : k ≠ w) :
    lookupIdx ((k, v) :: map) w = lookupIdx map w := by
  simp [lookupIdx, h]

/-- Record loop, established regime: when the function `wf` already has a
series at index `idx`, scanning the records for one context appends each
matching record's point, in record order, to that series. -/
theorem foldl_records_some (metric : MetricName) (version wf wc : String) :
    ∀ (s : List ParsedBenchmark) (series : List model.MetricSeries)
      (map : List (String × ℕ)) (idx : ℕ),
      lookupIdx map wf = some idx → idx < series.length →
      s.foldl (seriesStep metric version wf wc) (series, map) =
        (extendAt series idx ((s.filter (benchMatches metric version wf wc)).map mkPoint),
         map) := by
  intro s
  induction s with
  | nil => intro series map idx hmap hidx; simp [extendAt_nil]
  | cons bench rest ih =>
    intro series map idx hmap hidx
    rw [List.foldl_cons]
    cases hb : benchMatches metric version wf wc bench with
    | false =>
      rw [seriesStep_skip metric version wf wc _ bench hb]
      rw [ih series map idx hmap hidx]
      simp [List.filter_cons, hb]
    | true =>
      have hfun : bench.Function = wf := (benchMatches_eq hb).2.1
      have hstep : seriesStep metric version wf wc (series, map) bench =
          (extendAt series idx [mkPoint bench], map) := by
        simp [seriesStep, hb, hfun, hmap, appendPointAt_eq]
      rw [hstep]
      rw [ih (extendAt series idx [mkPoint bench]) map idx hmap
        (by rw [extendAt_length]; exact hidx)]
      rw [extendAt_extendAt]
      simp [List.filter_cons, hb]

/-- Context loop, established regime: with the series for `wf` already at
index `idx`, the context loop appends `matchPoints` (context-major order). -/
theorem foldl_contexts_some (metric : MetricName) (version wf : String) :
    ∀ (contexts : List String) (s : List ParsedBenchmark)
      (series : List model.MetricSeries) (map : List (String × ℕ)) (idx : ℕ),
      lookupIdx map wf = some idx → idx < series.length →
      contexts.foldl (fun st wc => s.foldl (seriesStep metric version wf wc) st)
          (series, map) =
        (extendAt series idx (matchPoints s metric version wf contexts), map) := by
  intro contexts
  induction contexts with
  | nil => intro s series map idx hmap hidx; simp [matchPoints, extendAt_nil]
  | cons wc rest ih =>
    intro s series map idx hmap hidx
    rw [List.foldl_cons, foldl_records_some metric version wf wc s series map idx hmap hidx]
    rw [ih s _ map idx hmap (by rw [extendAt_length]; exact hidx)]
    rw [extendAt_extendAt]
    simp [matchPoints, List.flatMap_cons]

theorem set_concat_len {α : Type} :
    ∀ (l : List α) (a b : α), (l ++ [a]).set l.length b = l ++ [b] := by
  intro l
  induction l with
  | nil => intro a b; rfl
  | cons x xs ih => intro a b; simp [List.set, ih a b]

theorem extendAt_concat (series : List model.MetricSeries) (t : String)
    (ps qs : List model.MetricPoint) :
    extendAt (series ++ [⟨t, ps⟩]) series.length qs = series ++ [⟨t, ps ++ qs⟩] := by
  have hg : (series ++ [(⟨t, ps⟩ : model.MetricSeries)])[series.length]? = some ⟨t, ps⟩ :=
    List.getElem?_concat_length _ _
  simp only [extendAt, List.get?_eq_getElem?, hg]
  exact set_concat_len series _ _

/-- Record loop, fresh regime: when `wf` has no series yet, the first
matching record creates one at the end of the series list and registers
its index, and the remaining matching records append to it; with no
matching record, the state is unchanged. -/
theorem foldl_records_none (metric : MetricName) (version wf wc : String) :
    ∀ (s : List ParsedBenchmark) (series : List model.MetricSeries)
      (map : List (String × ℕ)), lookupIdx map wf = none →
      s.foldl (seriesStep metric version wf wc) (series, map) =
        (if ((s.filter (benchMatches metric version wf wc)).map mkPoint).isEmpty then
          (series, map)
         else
          (series ++ [{ Title := version,
                        Points := (s.filter (benchMatches metric version wf wc)).map mkPoint }],
           (wf, series.length) :: map)) := by
  intro s
  induction s with
  | nil => intro series map hmap; simp
  | cons bench rest ih =>
    intro series map hmap
    rw [List.foldl_cons]
    cases hb : benchMatches metric version wf wc bench with
    | false =>
      rw [seriesStep_skip metric version wf wc _ bench hb]
      rw [ih series map hmap]
      simp [List.filter_cons, hb]
    | true =>
      have hfun : bench.Function = wf := (benchMatches_eq hb).2.1
      have hstep : seriesStep metric version wf wc (series, map) bench =
          (series ++ [{ Title := version, Points := [mkPoint bench] }],
           (wf, series.length) :: map) := by
        simp only [seriesStep, hb, if_true, hfun, hmap]
        rw [appendPointAt_eq]
        have := extendAt_concat series version [] [mkPoint bench]
        simpa using this
      rw [hstep]
      rw [foldl_records_some metric version wf wc rest _ _ series.length
        (lookupIdx_head map wf series.length) (by simp)]
      rw [extendAt_concat]
      simp [List.filter_cons, hb]

/-- Context loop, fresh regime: with no series for `wf` yet, the context
loop either leaves the state unchanged (no matching record at all) or
appends exactly one new series holding `matchPoints`, registering `wf` at
the old length. -/
theorem foldl_contexts_none (metric : MetricName) (version wf : String) :
    ∀ (contexts : List String) (s : List ParsedBenchmark)
      (series : List model.MetricSeries) (map : List (String × ℕ)),
      lookupIdx map wf = none →
      contexts.foldl (fun st wc => s.foldl (seriesStep metric version wf wc) st)
          (series, map) =
        (if (matchPoints s metric version wf contexts).isEmpty then (series, map)
         else
          (series ++ [{ Title := version, Points := matchPoints s metric version wf contexts }],
           (wf, series.length) :: map)) := by
  intro contexts
  induction contexts with
  | nil => intro s series map hmap; simp [matchPoints]
  | cons wc rest ih =>
    intro s series map hmap
    rw [List.foldl_cons, foldl_records_none metric version wf wc s series map hmap]
    cases h1 : ((s.filter (benchMatches metric version wf wc)).map mkPoint).isEmpty with
    | true =>
      have h1' : (s.filter (benchMatches metric version wf wc)).map mkPoint = [] :=
        List.isEmpty_iff.1 h1
      simp only [h1, if_true]
      rw [ih s series map hmap]
      simp [matchPoints, List.flatMap_cons, h1']
    | false =>
      simp only [h1, Bool.false_eq_true, if_false]
      rw [foldl_contexts_some metric version wf rest s _ _ series.length
        (lookupIdx_head map wf series.length) (by simp)]
      rw [extendAt_concat]
      have hne : matchPoints s metric version wf (wc :: rest) =
          (s.filter (benchMatches metric version wf wc)).map mkPoint ++
            matchPoints s metric version wf rest := by
        simp [matchPoints, List.flatMap_cons]
      have hempty : (matchPoints s metric version wf (wc :: rest)).isEmpty = false := by
        rw [hne]
        cases hh : (s.filter (benchMatches metric version wf wc)).map mkPoint with
        | nil => rw [hh] at h1; simp at h1
        | cons p ps => simp [hh]
      rw [hempty]
      simp [hne]

/-- Function loop: with pairwise-distinct configured functions none of
which is registered yet, the loop appends, in configured function order,
exactly one series per function that has at least one matching record. -/
theorem foldl_functions (metric : MetricName) (version : String) (contexts : List String)
    (s : List ParsedBenchmark) :
    ∀ (funcs : List String) (series : List model.MetricSeries) (map : List (String × ℕ)),
      funcs.Nodup → (∀ wf ∈ funcs, lookupIdx map wf = none) →
      ∃ map',
        funcs.foldl (fun st wf =>
            contexts.foldl (fun st wc => s.foldl (seriesStep metric version wf wc) st) st)
          (series, map) =
          (series ++
            (funcs.filter
              (fun wf => !(matchPoints s metric version wf contexts).isEmpty)).map
              (fun wf => { Title := version
                           Points := matchPoints s metric version wf contexts }),
           map') ∧
        ∀ w, w ∉ funcs → lookupIdx map' w = lookupIdx map w := by
  intro funcs
  induction funcs with
  | nil => intro series map hnd hfresh; exact ⟨map, by simp, fun w _ => rfl⟩
  | cons wf rest ih =>
    intro series map hnd hfresh
    rw [List.foldl_cons,
      foldl_contexts_none metric version wf contexts s series map
        (hfresh wf (List.mem_cons_self wf rest))]
    cases hpts : (matchPoints s metric version wf contexts).isEmpty with
    | true =>
      simp only [hpts, if_true]
      obtain ⟨map', heq, hpres⟩ := ih series map hnd.of_cons
        (fun w hw => hfresh w (List.mem_cons_of_mem wf hw))
      refine ⟨map', ?_, ?_⟩
      · rw [heq]
        simp [List.filter_cons, hpts]
      · intro w hw
        exact hpres w (fun hmem => hw (List.mem_cons_of_mem wf hmem))
    | false =>
      simp only [hpts, Bool.false_eq_true, if_false]
      have hfresh' : ∀ w ∈ rest, lookupIdx ((wf, series.length) :: map) w = none := by
        intro w hw
        have hne : wf ≠ w := by
          intro hEq
          exact (List.nodup_cons.1 hnd).1 (hEq ▸ hw)
        rw [lookupIdx_cons_ne map wf w series.length hne]
        exact hfresh w (List.mem_cons_of_mem wf hw)
      obtain ⟨map', heq, hpres⟩ := ih
        (series ++ [{ Title := version, Points := matchPoints s metric version wf contexts }])
        ((wf, series.length) :: map) hnd.of_cons hfresh'
      refine ⟨map', ?_, ?_⟩
      · rw [heq]
        simp [List.filter_cons, hpts]
      · intro w hw
        rw [hpres w (fun hmem => hw (List.mem_cons_of_mem wf hmem))]
        have hne : wf ≠ w := by
          intro hEq
          exact hw (hEq ▸ List.mem_cons_self wf rest)
        exact lookupIdx_cons_ne map wf w series.length hne

/-- C5: with pairwise-distinct configured function identifiers,
`SeriesFor` returns exactly one `MetricSeries` per function of the
category's include list that has at least one matching record, in the
configured function order; the points of each series are the matching
records grouped by the configured context order (record order within a
context), and a (metric, version) pair with no matching record at all —
in particular for every function — yields `[]`.  Per function, the series
is created at its first matching record and every later matching record
for that function appends a point to the same series. -/
theorem seriesFor_one_series_per_function (s : List ParsedBenchmark) (metric : MetricName)
    (version : String) (filter : Category) (h : filter.Includes.Functions.Nodup) :
    SeriesFor s metric version filter =
      (filter.Includes.Functions.filter
        (fun wf => !(matchPoints s metric version wf filter.Includes.Contexts).isEmpty)).map
        (fun wf => { Title := version
                     Points := matchPoints s metric version wf filter.Includes.Contexts }) := by
  obtain ⟨map', heq, _⟩ := foldl_functions metric version filter.Includes.Contexts s
    filter.Includes.Functions [] [] h (fun wf _ => rfl)
  unfold SeriesFor
  rw [heq]
  simp

/-- Witness for C5 on `recsW`/`catW`: the two functions of the include
list are distinct, and `SeriesFor` yields one series per function —
`f1`'s series collecting its two records in context order — not one
series per context. -/
theorem seriesFor_one_series_per_function_witness :
    catW.Includes.Functions.Nodup ∧
    SeriesFor recsW MetricNsPerOp "v1" catW =
      [{ Title := "v1", Points := [⟨"f1 - v1 - c1", 1⟩, ⟨"f1 - v1 - c2", 2⟩] },
       { Title := "v1", Points := [⟨"f2 - v1 - c1", 3⟩] }] :=
  ⟨by decide,
   (seriesFor_one_series_per_function recsW MetricNsPerOp "v1" catW (by decide)).trans rfl⟩

/-- A record whose version identifier is empty never satisfies the
record filter for a non-empty version, so `seriesStep` ignores it. -/
theorem benchMatches_empty_version (metric : MetricName) (version wf wc : String)
    (b : ParsedBenchmark) (hbv : b.Version = "") (hvne : version ≠ "") :
    benchMatches metric version wf wc b = false := by
  have hb : (b.Version == version) = false := by
    rw [hbv]
    exact beq_eq_false_iff_ne.2 (Ne.symm hvne)
  simp [benchMatches, hb]

/-- C6: (i) a measurement whose name matches no function entry produces no
classified record — `parseBenchmarkName` returns none plus a diagnostic,
and a source containing only that measurement yields an empty record list
(hence no point anywhere) with diagnostics emitted; (ii) a measurement
whose function resolves but whose version and context stay unresolved
after name and file matching is retained with empty version and context
identifiers, with a diagnostic; (iii) a retained record with an empty
version identifier contributes zero points to any selection whose version
is non-empty — as every category selection is, since validated version
identifiers are non-empty. -/
theorem unresolved_record_handling (cfg : Config) (name file env : String) :
    (cfg.FindFunction name = none →
      parseBenchmarkName cfg name file env = (none, [⟨file, name, "no function matched"⟩]) ∧
      ∀ b : Benchmark, b.Name = name →
        (parseBenchmarks cfg [{ Set := [[b]], File := file, Environment := env }]).1 = [] ∧
        (parseBenchmarks cfg [{ Set := [[b]], File := file, Environment := env }]).2 ≠ []) ∧
    (∀ fid, cfg.FindFunction name = some fid →
      cfg.FindVersion name = none →
      cfg.FindVersionFromFile file = none →
      cfg.FindContextFromFile file = none →
      parseBenchmarkName cfg name file env =
        (some { Function := fid, Version := "", Context := "", Metric := "", Name := "",
                Value := 0, Environment := defaultString cfg.Environment env },
         [⟨file, name, "no version, no context matched"⟩])) ∧
    (∀ (b : ParsedBenchmark) (metric : MetricName) (version : String) (filter : Category)
        (s₁ s₂ : List ParsedBenchmark), b.Version = "" → version ≠ "" →
      SeriesFor (s₁ ++ b :: s₂) metric version filter =
        SeriesFor (s₁ ++ s₂) metric version filter) := by
  refine ⟨?_, ?_, ?_⟩
  · intro h
    refine ⟨by simp [parseBenchmarkName, h], ?_⟩
    intro b hb
    constructor
    · simp [parseBenchmarks, parseBench, hb, parseBenchmarkName, h]
    · simp [parseBenchmarks, parseBench, hb, parseBenchmarkName, h]
  · intro fid h hv hvf hcf
    simp [parseBenchmarkName, h, hv, hvf, hcf]
  · intro b metric version filter s₁ s₂ hbv hvne
    have hstep : ∀ wf wc st, seriesStep metric version wf wc st b = st := fun wf wc st =>
      seriesStep_skip metric version wf wc st b
        (benchMatches_empty_version metric version wf wc b hbv hvne)
    have hfold : ∀ wf wc (st : List model.MetricSeries × List (String × ℕ)),
        (s₁ ++ b :: s₂).foldl (seriesStep metric version wf wc) st =
          (s₁ ++ s₂).foldl (seriesStep metric version wf wc) st := by
      intro wf wc st
      rw [List.foldl_append, List.foldl_append, List.foldl_cons, hstep wf wc _]
    have hfun : (fun (st : List model.MetricSeries × List (String × ℕ)) wantFunction =>
        filter.Includes.Contexts.foldl
          (fun st wantContext =>
            (s₁ ++ b :: s₂).foldl (seriesStep metric version wantFunction wantContext) st)
          st) =
        (fun st wantFunction =>
          filter.Includes.Contexts.foldl
            (fun st wantContext =>
              (s₁ ++ s₂).foldl (seriesStep metric version wantFunction wantContext) st)
            st) := by
      funext st wantFunction
      congr 1
      funext st' wantContext
      exact hfold wantFunction wantContext st'
    unfold SeriesFor
    rw [hfun]

/-- Witness for C6: both implications discharged at concrete inputs —
`cfgNoFun` never resolves a function, `cfgFunOnly` resolves the function
but neither version nor context, and `recEmptyVersion` contributes no
point to `catW`'s (ns-per-op, v1) selection. -/
theorem unresolved_record_handling_witness :
    (parseBenchmarkName cfgNoFun "BenchmarkX" "f.txt" "e" =
      (none, [⟨"f.txt", "BenchmarkX", "no function matched"⟩]) ∧
     (parseBenchmarks cfgNoFun
        [{ Set := [[⟨"BenchmarkX", 1, 0, 0, 0⟩]], File := "f.txt", Environment := "e" }]).1 = [] ∧
     (parseBenchmarks cfgNoFun
        [{ Set := [[⟨"BenchmarkX", 1, 0, 0, 0⟩]], File := "f.txt", Environment := "e" }]).2 ≠ []) ∧
    parseBenchmarkName cfgFunOnly "BenchmarkY" "g.txt" "e2" =
      (some { Function := "op", Version := "", Context := "", Metric := "", Name := "",
              Value := 0, Environment := defaultString cfgFunOnly.Environment "e2" },
       [⟨"g.txt", "BenchmarkY", "no version, no context matched"⟩]) ∧
    SeriesFor ([] ++ recEmptyVersion :: recsW) MetricNsPerOp "v1" catW =
      SeriesFor ([] ++ recsW) MetricNsPerOp "v1" catW := by
  have h1 := (unresolved_record_handling cfgNoFun "BenchmarkX" "f.txt" "e").1 rfl
  have h2 := (unresolved_record_handling cfgFunOnly "BenchmarkY" "g.txt" "e2").2.1 "op"
    rfl rfl rfl rfl
  have h3 := (unresolved_record_handling cfgNoFun "BenchmarkX" "f.txt" "e").2.2
    recEmptyVersion MetricNsPerOp "v1" catW [] recsW rfl (by decide)
  exact ⟨⟨h1.1, (h1.2 ⟨"BenchmarkX", 1, 0, 0, 0⟩ rfl).1, (h1.2 ⟨"BenchmarkX", 1, 0, 0, 0⟩ rfl).2⟩,
         h2, h3⟩

end Benchviz
